import Mathlib

/-!
Verification development for the designtech-graph repository.

The graph-relationship engine of the repository is shallowly embedded here:

* node / edge / dataset-record data model (`Node`, `Edge`, `RawRecord`),
* the two dataset edge builders `buildCompanyEdges` (src/utils.js lines
  277-323) and `buildInteroperabilityEdges` (src/utils.js lines 335-378),
* the degree counter `connectionCount` (the identical loops at
  src/utils.js lines 316-320 and 371-375),
* the initial-load edge derivation `initialEdgesFrom`
  (src/initialElements.js lines 68-86),
* the neighborhood expansion and opacity styling of App.jsx
  (lines 254-286 and 294-348), and
* the geometry helper `getNodeIntersection` (src/utils.js lines 33-63),
* the two layout helpers `arrangeNodes` and `arrangeNodesVertically`
  (src/utils.js lines 183-259).

JavaScript numbers are modelled as rationals (`ℚ`); `Math.cos`, `Math.sin`
and `Math.PI` are passed as explicit oracle parameters where they occur,
since all verified properties are independent of their values.
JavaScript string comparison (code-unit order used by `Array.prototype.sort`)
is modelled by the lexicographic order on Lean strings.
-/

namespace DesignTech

/-- Position of a node, JS `{x, y}` with numbers as rationals. -/
structure Pos where
  x : ℚ
  y : ℚ
  deriving DecidableEq, Repr

/-- The `data` payload of a graph node.  `type` is `Option` because
JavaScript reads `node.data.type` which may be `undefined`;
`designtechs` defaults to the empty list, matching the falsy check
`node.data.designtechs && node.data.designtechs.length`. -/
structure NodeData where
  label : String
  type : Option String
  designtechs : List String
  deriving DecidableEq, Repr

/-- A graph node: `{id, data, position}`. -/
structure Node where
  id : String
  data : NodeData
  position : Pos
  deriving DecidableEq, Repr

/-- A graph edge `{id, source, target, type}` as pushed by the builders. -/
structure Edge where
  id : String
  source : String
  target : String
  type : String
  deriving DecidableEq, Repr

/-- A dataset record: `{Name, Designtechs, Interoperability}`.
`Designtechs` absent is modelled as `[]` (falsy and length-0 behave
identically in the source); `Interoperability` absent is `none`. -/
structure RawRecord where
  Name : String
  Designtechs : List String
  Interoperability : Option String
  deriving DecidableEq, Repr

/-- JS `String.prototype.toLowerCase`, character-wise (exact on the ASCII
names occurring in the dataset). -/
def lowerStr (s : String) : String := ⟨s.data.map Char.toLower⟩

/-- Strict lexicographic comparison of character lists: the code-unit order
used by JS `<` on strings. -/
def strLtb : List Char → List Char → Bool
  | [], [] => false
  | [], _ :: _ => true
  | _ :: _, [] => false
  | a :: as, b :: bs => if a < b then true else if b < a then false else strLtb as bs

/-- The order `a ≤ b` on strings used by `Array.prototype.sort`. -/
def strLe (a b : String) : Bool := !(strLtb b.data a.data)

/-- JS test `node.data.type && node.data.type.toLowerCase() === 'company'`. -/
def isCompany (n : Node) : Bool :=
  match n.data.type with
  | some t => lowerStr t == "company"
  | none => false

/-- JS `[a, b].sort()` for two strings: ascending code-unit order. -/
def sortPair (a b : String) : String × String :=
  if strLe a b then (a, b) else (b, a)

/-- Canonical undirected edge id: `` `e-${id1}-${id2}` `` over the sorted
pair of endpoint ids (src/utils.js lines 300-301 and 363-364). -/
def edgeIdFor (a b : String) : String :=
  "e-" ++ (sortPair a b).1 ++ "-" ++ (sortPair a b).2

/-- Builder state: the `edges` array and the `edgeSet` of already-emitted
ids, kept in lockstep exactly like the source. -/
abbrev BState := List Edge × List String

/-- One inner-loop step shared verbatim by both builders
(src/utils.js lines 297-312 and 358-368): skip self references, skip
targets absent from the node set, dedup on the canonical id, otherwise
push the edge and record the id. -/
def addPairEdge (nodeIds : List String) (srcId tgt : String) (st : BState) : BState :=
  if tgt = srcId then st
  else if tgt ∉ nodeIds then st
  else
    let edgeId := edgeIdFor srcId tgt
    if edgeId ∈ st.2 then st
    else (st.1 ++ [⟨edgeId, srcId, tgt, "floating"⟩], st.2 ++ [edgeId])

/-- Map entry for `designMap` (src/utils.js lines 284-289): a record with a
non-empty `Designtechs` list contributes its deduplicated list. -/
def designEntry (r : RawRecord) : Option (List String) :=
  if r.Designtechs = [] then none else some r.Designtechs.eraseDups

/-- Lookup in `designMap`: JS `Map.set` overwrites, so the value for a name
is the one from the last contributing record. -/
def designMapGet (rawData : List RawRecord) (name : String) : Option (List String) :=
  ((rawData.filterMap (fun r => (designEntry r).map (fun l => (r.Name, l)))).reverse.find?
    (fun p => p.1 = name)).map (fun p => p.2)

/-- JS whitespace test used by `trim` (the characters occurring in data). -/
def isSpaceChar (c : Char) : Bool := c = ' ' || c = '\t' || c = '\n' || c = '\r'

/-- JS `String.prototype.trim`: strip whitespace from both ends. -/
def trimChars (l : List Char) : List Char :=
  ((l.dropWhile isSpaceChar).reverse.dropWhile isSpaceChar).reverse

/-- JS `String.prototype.split(',')` on the underlying character list. -/
def splitOnComma (l : List Char) : List (List Char) :=
  l.foldr (fun c acc =>
    match acc with
    | [] => [[c]]
    | h :: t => if c = ',' then [] :: h :: t else (c :: h) :: t) [[]]

/-- JS `item.Interoperability.split(',').map(s => s.trim()).filter(Boolean)`. -/
def parseInterop (s : String) : List String :=
  ((splitOnComma s.data).map (fun t => String.mk (trimChars t))).filter (fun t => t ≠ "")

/-- Map entry for `interopMap` (src/utils.js lines 342-347): the field must
be a truthy (non-empty) string and parse to a non-empty token list. -/
def interopEntry (r : RawRecord) : Option (List String) :=
  match r.Interoperability with
  | none => none
  | some s =>
    if s = "" then none
    else
      let list := parseInterop s
      if list = [] then none else some list

/-- Lookup in `interopMap`, last contributing record wins; a miss yields
`[]` (JS `interopMap.get(node.id) || []`). -/
def interopTechs (rawData : List RawRecord) (name : String) : List String :=
  (((rawData.filterMap (fun r => (interopEntry r).map (fun l => (r.Name, l)))).reverse.find?
    (fun p => p.1 = name)).map (fun p => p.2)).getD []

/-- Resolved tool list for a company node (src/utils.js line 296): prefer a
non-empty `node.data.designtechs`, else fall back to the dataset map. -/
def companyTechs (rawData : List RawRecord) (node : Node) : List String :=
  if node.data.designtechs ≠ [] then node.data.designtechs
  else (designMapGet rawData node.id).getD []

/-- Per-node step of `buildCompanyEdges` (src/utils.js lines 291-313):
non-company nodes are skipped, company nodes run the inner tech loop. -/
def companyStep (nodeIds : List String) (rawData : List RawRecord) (st : BState) (node : Node) :
    BState :=
  if isCompany node then
    (companyTechs rawData node).foldl (fun st tech => addPairEdge nodeIds node.id tech st) st
  else st

/-- Per-node step of `buildInteroperabilityEdges` (src/utils.js lines
349-369): company nodes are skipped as originators. -/
def interopStep (nodeIds : List String) (rawData : List RawRecord) (st : BState) (node : Node) :
    BState :=
  if isCompany node then st
  else (interopTechs rawData node.id).foldl (fun st tgt => addPairEdge nodeIds node.id tgt st) st

/-- Increment an entry of a JS object used as a counter:
`obj[k] = (obj[k] || 0) + 1`, modelled on an association list whose keys
are unique. -/
def bump (m : List (String × Nat)) (k : String) : List (String × Nat) :=
  if m.any (fun p => p.1 = k) then
    m.map (fun p => if p.1 = k then (p.1, p.2 + 1) else p)
  else m ++ [(k, 1)]

/-- The degree counter (identical loops at src/utils.js lines 316-320 and
371-375): increment a counter for both `source` and `target` of every
edge. -/
def connectionCount (edges : List Edge) : List (String × Nat) :=
  edges.foldl (fun m e => bump (bump m e.source) e.target) []

/-- The usage-mode edge builder `buildCompanyEdges`
(src/utils.js lines 277-323). -/
def buildCompanyEdges (positionedNodes : List Node) (rawData : List RawRecord) :
    List Edge × List (String × Nat) :=
  let nodeIds := positionedNodes.map (fun n => n.id)
  let st := positionedNodes.foldl (companyStep nodeIds rawData) ([], [])
  (st.1, connectionCount st.1)

/-- The interoperability-mode edge builder `buildInteroperabilityEdges`
(src/utils.js lines 335-378). -/
def buildInteroperabilityEdges (positionedNodes : List Node) (rawData : List RawRecord) :
    List Edge × List (String × Nat) :=
  let nodeIds := positionedNodes.map (fun n => n.id)
  let st := positionedNodes.foldl (interopStep nodeIds rawData) ([], [])
  (st.1, connectionCount st.1)

/-- The company → tech edge loop of the initial load
(src/initialElements.js lines 68-86).  Note the edge id is
`` `e-${node.id}-${tech}` `` in record order, with no sorting and no
duplicate guard.  In the source `node.data.type` is always present and
`node.data.designtechs` is always an array (hence truthy), so the guard
reduces to the company test. -/
def initialEdgesFrom (positionedNodes : List Node) : List Edge :=
  let nodeIds := positionedNodes.map (fun n => n.id)
  positionedNodes.foldl (fun edges node =>
    if isCompany node then
      node.data.designtechs.foldl (fun edges tech =>
        if tech ∈ nodeIds then
          edges ++ [⟨"e-" ++ node.id ++ "-" ++ tech, node.id, tech, "floating"⟩]
        else edges) edges
    else edges) []

/-- Neighborhood classification sets computed in App.jsx lines 254-286. -/
structure Neighborhood where
  firstNodes : List String
  firstEdges : List String
  secondNodes : List String
  secondEdges : List String
  deriving DecidableEq, Repr

/-- JS `Set.add`: append the element unless already present. -/
def addUnique (l : List String) (x : String) : List String :=
  if x ∈ l then l else l ++ [x]

/-- Body of the first-hop pass for a single edge (App.jsx lines 262-268):
if the edge is incident to the selected id, add the edge id and both
endpoint ids.  State is (firstOrderEdges, firstOrderNodes). -/
def fhStep (sel : String) (st : List String × List String) (e : Edge) :
    List String × List String :=
  if e.source = sel ∨ e.target = sel then
    (addUnique st.1 e.id, addUnique (addUnique st.2 e.source) e.target)
  else st

/-- First-hop pass over the whole edge list. -/
def firstHopFold (sel : String) (edges : List Edge) : List String × List String :=
  edges.foldl (fhStep sel) ([], [])

/-- Body of the second-hop pass for a single edge (App.jsx lines 272-284):
an edge touching a first-order node that is not itself direct is
second-order; its endpoints not already first-order become second-order
nodes.  State is (secondOrderEdges, secondOrderNodes). -/
def shStep (sel : String) (fN : List String) (st : List String × List String) (e : Edge) :
    List String × List String :=
  if (e.source ∈ fN ∨ e.target ∈ fN) ∧ ¬(e.source = sel ∨ e.target = sel) then
    (addUnique st.1 e.id,
      (let sn := if e.source ∈ fN then st.2 else addUnique st.2 e.source
       if e.target ∈ fN then sn else addUnique sn e.target))
  else st

/-- Second-hop pass over the whole edge list. -/
def secondHopFold (sel : String) (fN : List String) (edges : List Edge) :
    List String × List String :=
  edges.foldl (shStep sel fN) ([], [])

/-- Neighborhood expansion (App.jsx lines 254-286): all four sets are empty
when no node is selected; the second-hop pass runs only when the
interoperability order is 2. -/
def expand (selectedId : Option String) (edges : List Edge) (order : Nat) : Neighborhood :=
  match selectedId with
  | none => ⟨[], [], [], []⟩
  | some sel =>
    let fst := firstHopFold sel edges
    let snd := if order = 2 then secondHopFold sel fst.2 edges else ([], [])
    ⟨fst.2, fst.1, snd.2, snd.1⟩

/-- Node opacity assignment of `styledNodes` (App.jsx lines 294-317). -/
def nodeOpacity (selectedId : Option String) (order : Nat) (nb : Neighborhood)
    (nodeId : String) : ℚ :=
  match selectedId with
  | none => 1
  | some _ =>
    if nodeId ∈ nb.firstNodes then 1
    else if order = 2 ∧ nodeId ∈ nb.secondNodes then 1/2
    else 1/10

/-- Edge opacity assignment of `styledEdges` (App.jsx lines 325-348). -/
def edgeOpacity (selectedId : Option String) (order : Nat) (nb : Neighborhood)
    (edgeId : String) : ℚ :=
  match selectedId with
  | none => 1
  | some _ =>
    if edgeId ∈ nb.firstEdges then 1
    else if order = 2 ∧ edgeId ∈ nb.secondEdges then 7/20
    else 1/20

/-- A measured, absolutely positioned rectangle: the fields of a ReactFlow
node consumed by `getNodeIntersection` (`measured.width/height` and
`internals.positionAbsolute.x/y`). -/
structure Rect where
  width : ℚ
  height : ℚ
  x : ℚ
  y : ℚ
  deriving DecidableEq, Repr

/-- The rectangle-boundary intersection helper
(src/utils.js lines 33-63), verbatim over rationals. -/
def getNodeIntersection (intersectionNode targetNode : Rect) : ℚ × ℚ :=
  let w := intersectionNode.width / 2
  let h := intersectionNode.height / 2
  let x2 := intersectionNode.x + w
  let y2 := intersectionNode.y + h
  let x1 := targetNode.x + targetNode.width / 2
  let y1 := targetNode.y + targetNode.height / 2
  let xx1 := (x1 - x2) / (2 * w) - (y1 - y2) / (2 * h)
  let yy1 := (x1 - x2) / (2 * w) + (y1 - y2) / (2 * h)
  let a := 1 / (|xx1| + |yy1|)
  let xx3 := a * xx1
  let yy3 := a * yy1
  (w * (xx3 + yy3) + x2, h * (-xx3 + yy3) + y2)

/-- Center of a rectangle as computed by the source:
position plus half-dimensions (src/utils.js lines 45-49). -/
def rectCenter (r : Rect) : ℚ × ℚ := (r.x + r.width / 2, r.y + r.height / 2)

/-- The center-relative part of `getNodeIntersection` for half-dimensions
`w`, `h` and center-to-center vector `(dx, dy)`: exactly the body of
src/utils.js lines 52-60 with the `xx3`/`yy3` abbreviations inlined.
`getNodeIntersection` equals this plus the center, by definitional
unfolding (`getNodeIntersection_decomp`). -/
def interPoint (w h dx dy : ℚ) : ℚ × ℚ :=
  let xx1 := dx / (2 * w) - dy / (2 * h)
  let yy1 := dx / (2 * w) + dy / (2 * h)
  let a := 1 / (|xx1| + |yy1|)
  (w * (a * xx1 + a * yy1), h * (-(a * xx1) + a * yy1))

/-- Dynamic property read `a.data[arrangeBy]` restricted to the
string-valued fields that the UI passes (`'label'` from the
"Arrange by Name" button, `'type'` from "Arrange by Type"). -/
def dataStringField (d : NodeData) : String → Option String
  | "label" => some d.label
  | "type" => d.type
  | _ => none

/-- JS `a.data[arrangeBy]?.toLowerCase() || ''`. -/
def sortKey (arrangeBy : String) (d : NodeData) : String :=
  ((dataStringField d arrangeBy).map lowerStr).getD ""

/-- Circular arrangement `arrangeNodes` (src/utils.js lines 183-205).
`cosF`, `sinF` and `piQ` stand for `Math.cos`, `Math.sin` and `Math.PI`;
the verified properties hold for every choice of these oracles. -/
def arrangeNodes (cosF sinF : ℚ → ℚ) (piQ : ℚ) (nodes : List Node) (width height : ℚ)
    (arrangeBy : String) (radius : ℚ) : List Node :=
  let centerX := width / 2
  let centerY := height / 2
  let sortedNodes :=
    nodes.mergeSort (fun a b => strLe (sortKey arrangeBy a.data) (sortKey arrangeBy b.data))
  let angleStep := (2 * piQ) / (sortedNodes.length : ℚ)
  sortedNodes.enum.map (fun p =>
    let angle := (p.1 : ℚ) * angleStep
    { p.2 with position := ⟨centerX + radius * cosF angle, centerY + radius * sinF angle⟩ })

/-- JS object key for grouping by `node.data.type`
(`undefined` stringifies to "undefined"). -/
def typeKey (d : NodeData) : String := d.type.getD "undefined"

/-- One column of `arrangeNodesVertically` (src/utils.js lines 239-256):
for the column index and type key `q`, sort the type group by lower-cased
label and stack it vertically, centered around the viewport middle. -/
def typeColumn (nodes : List Node) (height : ℚ) (q : ℕ × String) : List Node :=
  let verticalSpacing : ℚ := 50
  let columnSpacing : ℚ := 250
  let typeNodes := (nodes.filter (fun n => typeKey n.data == q.2)).mergeSort
    (fun a b => strLe (lowerStr a.data.label) (lowerStr b.data.label))
  let columnStartY := height / 2 - ((typeNodes.length : ℚ) * verticalSpacing) / 2
  typeNodes.enum.map (fun p =>
    { p.2 with position :=
      ⟨(q.1 : ℚ) * columnSpacing + 100, columnStartY + (p.1 : ℚ) * verticalSpacing⟩ })

/-- Columnar arrangement `arrangeNodesVertically`
(src/utils.js lines 217-259): group by `node.data.type`, order columns by
the sorted type keys, emit each column.  The unused `maxHeight`
computation of the source is omitted. -/
def arrangeNodesVertically (nodes : List Node) (width height : ℚ) : List Node :=
  let types := ((nodes.map (fun n => typeKey n.data)).dedup).mergeSort strLe
  (types.enum.map (typeColumn nodes height)).flatten

/-- The identity of a node apart from its position: id and data payload. -/
def core (n : Node) : String × NodeData := (n.id, n.data)

/-! ### Concrete instances used by scenario checks, witnesses and
counterexamples -/

/-- Node pair for the interoperability scenario of spec §8. -/
def figmaNodes : List Node :=
  [⟨"Figma", ⟨"Figma", some "tool", []⟩, ⟨0, 0⟩⟩,
   ⟨"Sketch", ⟨"Sketch", some "tool", []⟩, ⟨0, 0⟩⟩]

/-- Dataset record `{Name:"Figma", Interoperability:"Sketch, Figma, Sketch"}`. -/
def figmaData : List RawRecord :=
  [⟨"Figma", [], some "Sketch, Figma, Sketch"⟩]

/-- Node pair for the usage scenario of spec §8. -/
def acmeNodes : List Node :=
  [⟨"Acme", ⟨"Acme", some "company", []⟩, ⟨0, 0⟩⟩,
   ⟨"Figma", ⟨"Figma", some "tool", []⟩, ⟨0, 0⟩⟩]

/-- Dataset record `{Name:"Acme", Designtechs:["Figma","Figma","Ghost"]}`. -/
def acmeData : List RawRecord :=
  [⟨"Acme", ["Figma", "Figma", "Ghost"], none⟩]

/-- Four tool nodes whose hyphenated ids make two distinct unordered pairs
share the canonical id string "e-a-b-c". -/
def collNodes : List Node :=
  [⟨"a", ⟨"a", some "tool", []⟩, ⟨0, 0⟩⟩,
   ⟨"b-c", ⟨"b-c", some "tool", []⟩, ⟨0, 0⟩⟩,
   ⟨"a-b", ⟨"a-b", some "tool", []⟩, ⟨0, 0⟩⟩,
   ⟨"c", ⟨"c", some "tool", []⟩, ⟨0, 0⟩⟩]

/-- Dataset implying the relations a→b-c, a-b→c and c→a-b. -/
def collData : List RawRecord :=
  [⟨"a", [], some "b-c"⟩, ⟨"a-b", [], some "c"⟩, ⟨"c", [], some "a-b"⟩]

/-- A company "B" using tool "A": the initial-load edge id comes out as
"e-B-A", not sorted. -/
def initNodes : List Node :=
  [⟨"B", ⟨"B", some "Company", ["A"]⟩, ⟨0, 0⟩⟩,
   ⟨"A", ⟨"A", some "Tool", []⟩, ⟨0, 0⟩⟩]

/-- A tool "T" whose interoperability list names the company "C". -/
def tcNodes : List Node :=
  [⟨"T", ⟨"T", some "tool", []⟩, ⟨0, 0⟩⟩,
   ⟨"C", ⟨"C", some "company", []⟩, ⟨0, 0⟩⟩]

/-- Dataset record `{Name:"T", Interoperability:"C"}`. -/
def tcData : List RawRecord := [⟨"T", [], some "C"⟩]

/-- An edge between "A" and "B", not incident to the node "X". -/
def edgeAB : Edge := ⟨"e-A-B", "A", "B", "floating"⟩

/-- The three-edge neighborhood scenario of spec §8:
edges A-Figma, Figma-B and A-C. -/
def hopEdges : List Edge :=
  [⟨"A-Figma", "A", "Figma", "floating"⟩,
   ⟨"Figma-B", "Figma", "B", "floating"⟩,
   ⟨"A-C", "A", "C", "floating"⟩]

/-- A 10×10 rectangle whose center is (5,5). -/
def rectA : Rect := ⟨10, 10, 0, 0⟩

/-- A small rectangle whose center (6,5) lies strictly inside `rectA`. -/
def rectB : Rect := ⟨2, 2, 5, 4⟩

/-- A rectangle far to the right of `rectA`, center (102, 5). -/
def rectC : Rect := ⟨4, 4, 100, 3⟩

/-! ### Verification predicates for the edge builders -/

/-- Invariant of the builder state throughout both edge builders: the
`edgeSet` mirrors the edge ids, ids are canonical and duplicate-free, both
endpoints are known node ids, no self loops, every source satisfies the
origin predicate `P`, and the edge type is "floating". -/
def GoodState (nodeIds : List String) (P : String → Prop) (st : BState) : Prop :=
  st.2 = st.1.map (fun e => e.id) ∧
  (st.1.map (fun e => e.id)).Nodup ∧
  ∀ e ∈ st.1, e.id = edgeIdFor e.source e.target ∧ e.source ∈ nodeIds ∧
    e.target ∈ nodeIds ∧ e.source ≠ e.target ∧ P e.source ∧ e.type = "floating"

/-- The source id belongs to a non-company node of the list. -/
def originNonCompany (ns : List Node) (s : String) : Prop :=
  ∃ n ∈ ns, n.id = s ∧ isCompany n = false

/-- The source id belongs to a company node of the list. -/
def originCompany (ns : List Node) (s : String) : Prop :=
  ∃ n ∈ ns, n.id = s ∧ isCompany n = true

/-- Injectivity of the canonical id on pairs drawn from the node-id list:
rules out accidental collisions of the "e-a-b" id strings (which hyphens
inside node ids can produce). -/
def PairInj (ids : List String) : Prop :=
  ∀ a ∈ ids, ∀ b ∈ ids, ∀ c ∈ ids, ∀ d ∈ ids,
    edgeIdFor a b = edgeIdFor c d → sortPair a b = sortPair c d

/-! ### Lemmas about the neighborhood expansion -/

theorem mem_addUnique {l : List String} {x y : String} :
    y ∈ addUnique l x ↔ y ∈ l ∨ y = x := by
  unfold addUnique
  split
  · rename_i h
    constructor
    · exact Or.inl
    · rintro (hy | rfl)
      · exact hy
      · exact h
  · simp [List.mem_append]

theorem firstHopFold_aux (sel : String) (edges : List Edge) (st : List String × List String) :
    ∀ x : String,
      (x ∈ (edges.foldl (fhStep sel) st).1 ↔
        x ∈ st.1 ∨ ∃ e ∈ edges, (e.source = sel ∨ e.target = sel) ∧ x = e.id) ∧
      (x ∈ (edges.foldl (fhStep sel) st).2 ↔
        x ∈ st.2 ∨ ∃ e ∈ edges,
          (e.source = sel ∨ e.target = sel) ∧ (x = e.source ∨ x = e.target)) := by
  induction edges generalizing st with
  | nil => simp
  | cons e es ih =>
    intro x
    rcases ih (fhStep sel st e) x with ⟨ih1, ih2⟩
    constructor
    · rw [List.foldl_cons, ih1]
      by_cases hc : e.source = sel ∨ e.target = sel
      · simp only [fhStep, if_pos hc, mem_addUnique, List.exists_mem_cons_iff]
        constructor
        · rintro ((h | h) | h)
          · exact Or.inl h
          · exact Or.inr (Or.inl ⟨hc, h⟩)
          · exact Or.inr (Or.inr h)
        · rintro (h | (⟨-, h⟩ | h))
          · exact Or.inl (Or.inl h)
          · exact Or.inl (Or.inr h)
          · exact Or.inr h
      · simp only [fhStep, if_neg hc, List.exists_mem_cons_iff]
        constructor
        · rintro (h | h)
          · exact Or.inl h
          · exact Or.inr (Or.inr h)
        · rintro (h | (⟨hcc, -⟩ | h))
          · exact Or.inl h
          · exact absurd hcc hc
          · exact Or.inr h
    · rw [List.foldl_cons, ih2]
      by_cases hc : e.source = sel ∨ e.target = sel
      · simp only [fhStep, if_pos hc, mem_addUnique, List.exists_mem_cons_iff]
        constructor
        · rintro (((h | h) | h) | h)
          · exact Or.inl h
          · exact Or.inr (Or.inl ⟨hc, Or.inl h⟩)
          · exact Or.inr (Or.inl ⟨hc, Or.inr h⟩)
          · exact Or.inr (Or.inr h)
        · rintro (h | (⟨-, h | h⟩ | h))
          · exact Or.inl (Or.inl (Or.inl h))
          · exact Or.inl (Or.inl (Or.inr h))
          · exact Or.inl (Or.inr h)
          · exact Or.inr h
      · simp only [fhStep, if_neg hc, List.exists_mem_cons_iff]
        constructor
        · rintro (h | h)
          · exact Or.inl h
          · exact Or.inr (Or.inr h)
        · rintro (h | (⟨hcc, -⟩ | h))
          · exact Or.inl h
          · exact absurd hcc hc
          · exact Or.inr h

theorem secondHopFold_aux (sel : String) (fN : List String) (edges : List Edge)
    (st : List String × List String) :
    ∀ x : String,
      (x ∈ (edges.foldl (shStep sel fN) st).1 ↔
        x ∈ st.1 ∨ ∃ e ∈ edges,
          ((e.source ∈ fN ∨ e.target ∈ fN) ∧ ¬(e.source = sel ∨ e.target = sel)) ∧
            x = e.id) ∧
      (x ∈ (edges.foldl (shStep sel fN) st).2 ↔
        x ∈ st.2 ∨ ∃ e ∈ edges,
          ((e.source ∈ fN ∨ e.target ∈ fN) ∧ ¬(e.source = sel ∨ e.target = sel)) ∧
            ((x = e.source ∧ e.source ∉ fN) ∨ (x = e.target ∧ e.target ∉ fN))) := by
  induction edges generalizing st with
  | nil => simp
  | cons e es ih =>
    intro x
    rcases ih (shStep sel fN st e) x with ⟨ih1, ih2⟩
    by_cases hq : (e.source ∈ fN ∨ e.target ∈ fN) ∧ ¬(e.source = sel ∨ e.target = sel)
    · constructor
      · rw [List.foldl_cons, ih1]
        simp only [shStep, if_pos hq, mem_addUnique, List.exists_mem_cons_iff]
        constructor
        · rintro ((h | h) | h)
          · exact Or.inl h
          · exact Or.inr (Or.inl ⟨hq, h⟩)
          · exact Or.inr (Or.inr h)
        · rintro (h | (⟨-, h⟩ | h))
          · exact Or.inl (Or.inl h)
          · exact Or.inl (Or.inr h)
          · exact Or.inr h
      · rw [List.foldl_cons, ih2]
        simp only [shStep, if_pos hq, List.exists_mem_cons_iff]
        by_cases hs : e.source ∈ fN <;> by_cases ht : e.target ∈ fN
        · simp only [if_pos hs, if_pos ht, mem_addUnique]
          constructor
          · rintro (h | h)
            · exact Or.inl h
            · exact Or.inr (Or.inr h)
          · rintro (h | (⟨-, (⟨-, hf⟩ | ⟨-, hf⟩)⟩ | h))
            · exact Or.inl h
            · exact absurd hs hf
            · exact absurd ht hf
            · exact Or.inr h
        · simp only [if_pos hs, if_neg ht, mem_addUnique]
          constructor
          · rintro ((h | h) | h)
            · exact Or.inl h
            · exact Or.inr (Or.inl ⟨hq, Or.inr ⟨h, ht⟩⟩)
            · exact Or.inr (Or.inr h)
          · rintro (h | (⟨-, (⟨-, hf⟩ | ⟨hx, -⟩)⟩ | h))
            · exact Or.inl (Or.inl h)
            · exact absurd hs hf
            · exact Or.inl (Or.inr hx)
            · exact Or.inr h
        · simp only [if_neg hs, if_pos ht, mem_addUnique]
          constructor
          · rintro ((h | h) | h)
            · exact Or.inl h
            · exact Or.inr (Or.inl ⟨hq, Or.inl ⟨h, hs⟩⟩)
            · exact Or.inr (Or.inr h)
          · rintro (h | (⟨-, (⟨hx, -⟩ | ⟨-, hf⟩)⟩ | h))
            · exact Or.inl (Or.inl h)
            · exact Or.inl (Or.inr hx)
            · exact absurd ht hf
            · exact Or.inr h
        · simp only [if_neg hs, if_neg ht, mem_addUnique]
          constructor
          · rintro (((h | h) | h) | h)
            · exact Or.inl h
            · exact Or.inr (Or.inl ⟨hq, Or.inl ⟨h, hs⟩⟩)
            · exact Or.inr (Or.inl ⟨hq, Or.inr ⟨h, ht⟩⟩)
            · exact Or.inr (Or.inr h)
          · rintro (h | (⟨-, (⟨hx, -⟩ | ⟨hx, -⟩)⟩ | h))
            · exact Or.inl (Or.inl (Or.inl h))
            · exact Or.inl (Or.inl (Or.inr hx))
            · exact Or.inl (Or.inr hx)
            · exact Or.inr h
    · constructor
      · rw [List.foldl_cons, ih1]
        simp only [shStep, if_neg hq, List.exists_mem_cons_iff]
        constructor
        · rintro (h | h)
          · exact Or.inl h
          · exact Or.inr (Or.inr h)
        · rintro (h | (⟨hcc, -⟩ | h))
          · exact Or.inl h
          · exact absurd hcc hq
          · exact Or.inr h
      · rw [List.foldl_cons, ih2]
        simp only [shStep, if_neg hq, List.exists_mem_cons_iff]
        constructor
        · rintro (h | h)
          · exact Or.inl h
          · exact Or.inr (Or.inr h)
        · rintro (h | (⟨hcc, -⟩ | h))
          · exact Or.inl h
          · exact absurd hcc hq
          · exact Or.inr h

theorem mem_firstHopFold_fst {sel x : String} {edges : List Edge} :
    x ∈ (firstHopFold sel edges).1 ↔
      ∃ e ∈ edges, (e.source = sel ∨ e.target = sel) ∧ x = e.id := by
  have h := (firstHopFold_aux sel edges ([], []) x).1
  simpa [firstHopFold] using h

theorem mem_firstHopFold_snd {sel x : String} {edges : List Edge} :
    x ∈ (firstHopFold sel edges).2 ↔
      ∃ e ∈ edges, (e.source = sel ∨ e.target = sel) ∧ (x = e.source ∨ x = e.target) := by
  have h := (firstHopFold_aux sel edges ([], []) x).2
  simpa [firstHopFold] using h

theorem mem_secondHopFold_fst {sel x : String} {fN : List String} {edges : List Edge} :
    x ∈ (secondHopFold sel fN edges).1 ↔
      ∃ e ∈ edges,
        ((e.source ∈ fN ∨ e.target ∈ fN) ∧ ¬(e.source = sel ∨ e.target = sel)) ∧ x = e.id := by
  have h := (secondHopFold_aux sel fN edges ([], []) x).1
  simpa [secondHopFold] using h

theorem mem_secondHopFold_snd {sel x : String} {fN : List String} {edges : List Edge} :
    x ∈ (secondHopFold sel fN edges).2 ↔
      ∃ e ∈ edges,
        ((e.source ∈ fN ∨ e.target ∈ fN) ∧ ¬(e.source = sel ∨ e.target = sel)) ∧
          ((x = e.source ∧ e.source ∉ fN) ∨ (x = e.target ∧ e.target ∉ fN)) := by
  have h := (secondHopFold_aux sel fN edges ([], []) x).2
  simpa [secondHopFold] using h

theorem expand_some_two (sel : String) (edges : List Edge) :
    expand (some sel) edges 2 =
      ⟨(firstHopFold sel edges).2, (firstHopFold sel edges).1,
        (secondHopFold sel (firstHopFold sel edges).2 edges).2,
        (secondHopFold sel (firstHopFold sel edges).2 edges).1⟩ := rfl

/-! ### Claim C6 -/

/-- C6: with hop limit 2, the second-hop edge set contains exactly the ids
of edges that are not first-hop (not incident to the selected id) and have
at least one endpoint among the first-hop nodes; the second-hop node set
contains exactly the endpoints of such edges that are not already
first-hop nodes, and it never contains an id already in the first-hop
node set. -/
theorem C6_second_hop_exact (sel : String) (edges : List Edge) (x : String) :
    (x ∈ (expand (some sel) edges 2).secondEdges ↔
      ∃ e ∈ edges,
        ((e.source ∈ (expand (some sel) edges 2).firstNodes ∨
          e.target ∈ (expand (some sel) edges 2).firstNodes) ∧
         ¬(e.source = sel ∨ e.target = sel)) ∧ x = e.id) ∧
    (x ∈ (expand (some sel) edges 2).secondNodes ↔
      ∃ e ∈ edges,
        ((e.source ∈ (expand (some sel) edges 2).firstNodes ∨
          e.target ∈ (expand (some sel) edges 2).firstNodes) ∧
         ¬(e.source = sel ∨ e.target = sel)) ∧
        ((x = e.source ∨ x = e.target) ∧ x ∉ (expand (some sel) edges 2).firstNodes)) ∧
    (x ∈ (expand (some sel) edges 2).secondNodes →
      x ∉ (expand (some sel) edges 2).firstNodes) := by
  refine ⟨mem_secondHopFold_fst, ?_, ?_⟩
  · refine Iff.trans
      (@mem_secondHopFold_snd sel x ((firstHopFold sel edges).2) edges) ?_
    constructor
    · rintro ⟨e, he, hq, (⟨rfl, h⟩ | ⟨rfl, h⟩)⟩
      · exact ⟨e, he, hq, Or.inl rfl, h⟩
      · exact ⟨e, he, hq, Or.inr rfl, h⟩
    · rintro ⟨e, he, hq, (rfl | rfl), h⟩
      · exact ⟨e, he, hq, Or.inl ⟨rfl, h⟩⟩
      · exact ⟨e, he, hq, Or.inr ⟨rfl, h⟩⟩
  · intro hx
    rcases mem_secondHopFold_snd.mp hx with ⟨e, -, -, (⟨rfl, h⟩ | ⟨rfl, h⟩)⟩
    · exact h
    · exact h

/-- Witness for C6 at the three-edge scenario of spec §8: the edge A-C is
second-hop for selection "Figma", and node C is a second-hop node. -/
theorem C6_witness :
    ("A-C" ∈ (expand (some "Figma") hopEdges 2).secondEdges ↔
      ∃ e ∈ hopEdges,
        ((e.source ∈ (expand (some "Figma") hopEdges 2).firstNodes ∨
          e.target ∈ (expand (some "Figma") hopEdges 2).firstNodes) ∧
         ¬(e.source = "Figma" ∨ e.target = "Figma")) ∧ "A-C" = e.id) ∧
    ("A-C" ∈ (expand (some "Figma") hopEdges 2).secondNodes ↔
      ∃ e ∈ hopEdges,
        ((e.source ∈ (expand (some "Figma") hopEdges 2).firstNodes ∨
          e.target ∈ (expand (some "Figma") hopEdges 2).firstNodes) ∧
         ¬(e.source = "Figma" ∨ e.target = "Figma")) ∧
        (("A-C" = e.source ∨ "A-C" = e.target) ∧
          "A-C" ∉ (expand (some "Figma") hopEdges 2).firstNodes)) ∧
    ("A-C" ∈ (expand (some "Figma") hopEdges 2).secondNodes →
      "A-C" ∉ (expand (some "Figma") hopEdges 2).firstNodes) :=
  C6_second_hop_exact "Figma" hopEdges "A-C"

/-! ### Claim C7 -/

/-- C7 counterexample: selecting the id "X", which has no incident edge in
the edge list, leaves the first-hop node set empty — it does not contain
the selected id — and the selected node is rendered at opacity 1/10, not
at full visual weight. -/
theorem C7_counterexample :
    "X" ∉ (expand (some "X") [edgeAB] 1).firstNodes ∧
    nodeOpacity (some "X") 1 (expand (some "X") [edgeAB] 1) "X" ≠ 1 := by
  constructor
  · decide
  · have h : expand (some "X") [edgeAB] 1 = ⟨[], [], [], []⟩ := by decide
    rw [h]
    norm_num [nodeOpacity]

/-- C7 (amended): for every selected node id with at least one incident
edge, the first-hop node set contains the selected id itself and both
endpoints of every incident edge, and the selected node is rendered at
full visual weight (opacity 1), taking precedence over second-hop and
unrelated classification. -/
theorem C7_selected_in_first_hop (sel : String) (edges : List Edge) (order : Nat)
    (h : ∃ e ∈ edges, e.source = sel ∨ e.target = sel) :
    sel ∈ (expand (some sel) edges order).firstNodes ∧
    (∀ e ∈ edges, (e.source = sel ∨ e.target = sel) →
      e.source ∈ (expand (some sel) edges order).firstNodes ∧
      e.target ∈ (expand (some sel) edges order).firstNodes) ∧
    nodeOpacity (some sel) order (expand (some sel) edges order) sel = 1 := by
  have hfn : ∀ y : String, y ∈ (expand (some sel) edges order).firstNodes ↔
      ∃ e ∈ edges, (e.source = sel ∨ e.target = sel) ∧ (y = e.source ∨ y = e.target) :=
    fun y => mem_firstHopFold_snd
  have hsel : sel ∈ (expand (some sel) edges order).firstNodes := by
    rcases h with ⟨e, he, hinc⟩
    rcases hinc with hs | ht
    · exact (hfn sel).mpr ⟨e, he, Or.inl hs, Or.inl hs.symm⟩
    · exact (hfn sel).mpr ⟨e, he, Or.inr ht, Or.inr ht.symm⟩
  refine ⟨hsel, ?_, ?_⟩
  · intro e he hinc
    exact ⟨(hfn e.source).mpr ⟨e, he, hinc, Or.inl rfl⟩,
      (hfn e.target).mpr ⟨e, he, hinc, Or.inr rfl⟩⟩
  · simp only [nodeOpacity, if_pos hsel]

/-- Witness for C7 at the spec §8 scenario: selecting "Figma" with its two
incident edges. -/
theorem C7_witness :
    "Figma" ∈ (expand (some "Figma") hopEdges 1).firstNodes ∧
    (∀ e ∈ hopEdges, (e.source = "Figma" ∨ e.target = "Figma") →
      e.source ∈ (expand (some "Figma") hopEdges 1).firstNodes ∧
      e.target ∈ (expand (some "Figma") hopEdges 1).firstNodes) ∧
    nodeOpacity (some "Figma") 1 (expand (some "Figma") hopEdges 1) "Figma" = 1 :=
  C7_selected_in_first_hop "Figma" hopEdges 1 (by decide)

/-! ### Claim C8 -/

/-- C8: with no selected node all four neighborhood sets are empty and
every node and edge renders at opacity 1; selecting an id that matches no
node (with all edge endpoints drawn from the node set) also yields empty
neighborhood sets. -/
theorem C8_null_selection :
    (∀ (edges : List Edge) (order : Nat), expand none edges order = ⟨[], [], [], []⟩) ∧
    (∀ (edges : List Edge) (order : Nat) (nid : String),
      nodeOpacity none order (expand none edges order) nid = 1) ∧
    (∀ (edges : List Edge) (order : Nat) (eid : String),
      edgeOpacity none order (expand none edges order) eid = 1) ∧
    (∀ (sel : String) (nodes : List Node) (edges : List Edge) (order : Nat),
      sel ∉ nodes.map (fun n => n.id) →
      (∀ e ∈ edges, e.source ∈ nodes.map (fun n => n.id) ∧
        e.target ∈ nodes.map (fun n => n.id)) →
      expand (some sel) edges order = ⟨[], [], [], []⟩) := by
  refine ⟨fun _ _ => rfl, fun _ _ _ => rfl, fun _ _ _ => rfl, ?_⟩
  intro sel nodes edges order hsel hedges
  have hfst : firstHopFold sel edges = ([], []) := by
    have h1 : ∀ x, x ∉ (firstHopFold sel edges).1 := by
      intro x hx
      rcases mem_firstHopFold_fst.mp hx with ⟨e, he, hinc, -⟩
      rcases hinc with h | h
      · exact hsel (h ▸ (hedges e he).1)
      · exact hsel (h ▸ (hedges e he).2)
    have h2 : ∀ x, x ∉ (firstHopFold sel edges).2 := by
      intro x hx
      rcases mem_firstHopFold_snd.mp hx with ⟨e, he, hinc, -⟩
      rcases hinc with h | h
      · exact hsel (h ▸ (hedges e he).1)
      · exact hsel (h ▸ (hedges e he).2)
    have e1 : (firstHopFold sel edges).1 = [] := List.eq_nil_iff_forall_not_mem.mpr h1
    have e2 : (firstHopFold sel edges).2 = [] := List.eq_nil_iff_forall_not_mem.mpr h2
    exact Prod.ext e1 e2
  have hsnd : secondHopFold sel ([] : List String) edges = ([], []) := by
    have h1 : ∀ x, x ∉ (secondHopFold sel ([] : List String) edges).1 := by
      intro x hx
      rcases mem_secondHopFold_fst.mp hx with ⟨e, -, ⟨hq, -⟩, -⟩
      rcases hq with h | h <;> exact (List.not_mem_nil _) h
    have h2 : ∀ x, x ∉ (secondHopFold sel ([] : List String) edges).2 := by
      intro x hx
      rcases mem_secondHopFold_snd.mp hx with ⟨e, -, ⟨hq, -⟩, -⟩
      rcases hq with h | h <;> exact (List.not_mem_nil _) h
    exact Prod.ext (List.eq_nil_iff_forall_not_mem.mpr h1)
      (List.eq_nil_iff_forall_not_mem.mpr h2)
  have hdef : expand (some sel) edges order =
      ⟨(firstHopFold sel edges).2, (firstHopFold sel edges).1,
        (if order = 2 then secondHopFold sel (firstHopFold sel edges).2 edges
          else ([], [])).2,
        (if order = 2 then secondHopFold sel (firstHopFold sel edges).2 edges
          else ([], [])).1⟩ := rfl
  rw [hdef, hfst]
  by_cases ho : order = 2
  · simp [ho, hsnd]
  · simp [ho]

/-- Witness for C8: the nonexistent-selection conjunct applied to a
concrete id "Ghost" absent from the Figma/Sketch node pair. -/
theorem C8_witness :
    expand (some "Ghost") [⟨"e-Figma-Sketch", "Figma", "Sketch", "floating"⟩] 2 =
      ⟨[], [], [], []⟩ :=
  C8_null_selection.2.2.2 "Ghost" figmaNodes
    [⟨"e-Figma-Sketch", "Figma", "Sketch", "floating"⟩] 2 (by decide) (by decide)

/-! ### Claim C3: degree consistency -/

theorem update_keys (k : String) (m : List (String × Nat)) :
    (m.map (fun p => if p.1 = k then (p.1, p.2 + 1) else p)).map Prod.fst
      = m.map Prod.fst := by
  rw [List.map_map]
  apply List.map_congr_left
  intro p _
  by_cases hpk : p.1 = k <;> simp [hpk]

theorem update_sum (k : String) :
    ∀ m : List (String × Nat), (m.map Prod.fst).Nodup →
      m.any (fun p => p.1 = k) = true →
      ((m.map (fun p => if p.1 = k then (p.1, p.2 + 1) else p)).map Prod.snd).sum
        = (m.map Prod.snd).sum + 1 := by
  intro m
  induction m with
  | nil => simp
  | cons p t ih =>
    intro hnd hany
    have hnd1 : p.1 ∉ t.map Prod.fst := by
      simp only [List.map_cons, List.nodup_cons] at hnd
      exact hnd.1
    have hndt : (t.map Prod.fst).Nodup := by
      simp only [List.map_cons, List.nodup_cons] at hnd
      exact hnd.2
    by_cases hp : p.1 = k
    · have htail : t.map (fun q => if q.1 = k then (q.1, q.2 + 1) else q) = t := by
        conv_rhs => rw [← List.map_id t]
        apply List.map_congr_left
        intro q hq
        have hqk : q.1 ≠ k := by
          intro hqe
          have hmem : q.1 ∈ t.map Prod.fst := List.mem_map_of_mem Prod.fst hq
          rw [hqe, ← hp] at hmem
          exact hnd1 hmem
        simp [hqk]
      simp only [List.map_cons, if_pos hp, htail, List.sum_cons]
      omega
    · have hanyt : t.any (fun q => q.1 = k) = true := by
        simp only [List.any_cons, Bool.or_eq_true, decide_eq_true_eq] at hany
        rcases hany with h | h
        · exact absurd h hp
        · exact h
      have := ih hndt hanyt
      simp only [List.map_cons, if_neg hp, List.sum_cons]
      omega

theorem bump_keys_nodup (k : String) (m : List (String × Nat))
    (h : (m.map Prod.fst).Nodup) : ((bump m k).map Prod.fst).Nodup := by
  unfold bump
  split
  · rw [update_keys]
    exact h
  · rename_i hany
    have hk : k ∉ m.map Prod.fst := by
      intro hmem
      rcases List.mem_map.mp hmem with ⟨p, hp, hpk⟩
      exact hany (List.any_eq_true.mpr ⟨p, hp, by simp [hpk]⟩)
    rw [List.map_append]
    simp only [List.map_cons, List.map_nil]
    rw [List.nodup_append]
    exact ⟨h, List.nodup_singleton k, by simpa [List.disjoint_right] using hk⟩

theorem bump_sum (k : String) (m : List (String × Nat))
    (h : (m.map Prod.fst).Nodup) :
    ((bump m k).map Prod.snd).sum = (m.map Prod.snd).sum + 1 := by
  unfold bump
  split
  · rename_i hany
    exact update_sum k m h hany
  · rw [List.map_append]
    simp

theorem connectionCount_fold_sum (edges : List Edge) :
    ∀ m : List (String × Nat), (m.map Prod.fst).Nodup →
      (((edges.foldl (fun m e => bump (bump m e.source) e.target) m).map Prod.snd).sum
          = (m.map Prod.snd).sum + 2 * edges.length) ∧
      (((edges.foldl (fun m e => bump (bump m e.source) e.target) m).map Prod.fst).Nodup) := by
  induction edges with
  | nil => intro m hm; simpa using hm
  | cons e es ih =>
    intro m hm
    have h1 : ((bump m e.source).map Prod.fst).Nodup := bump_keys_nodup _ m hm
    have h2 : ((bump (bump m e.source) e.target).map Prod.fst).Nodup :=
      bump_keys_nodup _ _ h1
    rcases ih (bump (bump m e.source) e.target) h2 with ⟨ihs, ihn⟩
    refine ⟨?_, by simpa using ihn⟩
    rw [List.foldl_cons, ihs, bump_sum _ _ h1, bump_sum _ _ hm]
    simp only [List.length_cons]
    ring

/-- C3: for every edge list, the values of the connection-count map
produced by the degree computation sum to twice the number of edges. -/
theorem C3_degree_consistency (edges : List Edge) :
    ((connectionCount edges).map Prod.snd).sum = 2 * edges.length := by
  have h := (connectionCount_fold_sum edges [] (by simp)).1
  simpa [connectionCount] using h

/-- Witness for C3 at the Figma/Sketch interoperability scenario. -/
theorem C3_witness :
    (((connectionCount (buildInteroperabilityEdges figmaNodes figmaData).1).map
      Prod.snd).sum = 2 * (buildInteroperabilityEdges figmaNodes figmaData).1.length) :=
  C3_degree_consistency (buildInteroperabilityEdges figmaNodes figmaData).1

/-! ### Builder-state lemmas -/

theorem addPairEdge_good {nodeIds : List String} {P : String → Prop} {st : BState}
    {srcId tgt : String} (h : GoodState nodeIds P st) (hsrc : srcId ∈ nodeIds)
    (hP : P srcId) : GoodState nodeIds P (addPairEdge nodeIds srcId tgt st) := by
  unfold addPairEdge
  split
  · exact h
  split
  · exact h
  rename_i hne hmem
  dsimp only
  split
  · exact h
  rename_i hnew
  obtain ⟨hsync, hnd, hall⟩ := h
  refine ⟨?_, ?_, ?_⟩
  · simp only [List.map_append, List.map_cons, List.map_nil]
    rw [hsync]
  · simp only [List.map_append, List.map_cons, List.map_nil]
    rw [List.nodup_append]
    refine ⟨hnd, List.nodup_singleton _, ?_⟩
    rw [hsync] at hnew
    simpa [List.disjoint_right] using hnew
  · intro e he
    rcases List.mem_append.mp he with he | he
    · exact hall e he
    · rcases List.mem_singleton.mp he with rfl
      refine ⟨rfl, hsrc, not_not.mp hmem, ?_, hP, rfl⟩
      exact fun hcontra => hne hcontra.symm

theorem addPairEdge_mono_snd {nodeIds : List String} {st : BState} {srcId tgt x : String}
    (h : x ∈ st.2) : x ∈ (addPairEdge nodeIds srcId tgt st).2 := by
  unfold addPairEdge
  split
  · exact h
  split
  · exact h
  dsimp only
  split
  · exact h
  exact List.mem_append.mpr (Or.inl h)

theorem addPairEdge_adds {nodeIds : List String} {st : BState} {srcId tgt : String}
    (hne : tgt ≠ srcId) (hmem : tgt ∈ nodeIds) :
    edgeIdFor srcId tgt ∈ (addPairEdge nodeIds srcId tgt st).2 := by
  unfold addPairEdge
  rw [if_neg hne, if_neg (not_not_intro hmem)]
  dsimp only
  split
  · assumption
  · exact List.mem_append.mpr (Or.inr (List.mem_singleton.mpr rfl))

theorem foldl_addPair_good {nodeIds : List String} {P : String → Prop} {srcId : String}
    (techs : List String) :
    ∀ st : BState, GoodState nodeIds P st → srcId ∈ nodeIds → P srcId →
      GoodState nodeIds P
        (techs.foldl (fun st t => addPairEdge nodeIds srcId t st) st) := by
  induction techs with
  | nil => exact fun st h _ _ => h
  | cons t ts ih =>
    intro st h hsrc hP
    exact ih (addPairEdge nodeIds srcId t st) (addPairEdge_good h hsrc hP) hsrc hP

theorem foldl_addPair_mono_snd {nodeIds : List String} {srcId x : String}
    (techs : List String) :
    ∀ st : BState, x ∈ st.2 →
      x ∈ (techs.foldl (fun st t => addPairEdge nodeIds srcId t st) st).2 := by
  induction techs with
  | nil => exact fun st h => h
  | cons t ts ih =>
    intro st h
    exact ih (addPairEdge nodeIds srcId t st) (addPairEdge_mono_snd h)

theorem foldl_addPair_adds {nodeIds : List String} {srcId t : String}
    (techs : List String) (ht : t ∈ techs) (hne : t ≠ srcId) (hmem : t ∈ nodeIds) :
    ∀ st : BState,
      edgeIdFor srcId t ∈ (techs.foldl (fun st t => addPairEdge nodeIds srcId t st) st).2 := by
  induction techs with
  | nil => exact absurd ht (List.not_mem_nil t)
  | cons a ts ih =>
    intro st
    rcases List.mem_cons.mp ht with rfl | hmem2
    · exact foldl_addPair_mono_snd ts (addPairEdge nodeIds srcId t st) (addPairEdge_adds hne hmem)
    · exact ih hmem2 (addPairEdge nodeIds srcId a st)

theorem foldl_interopStep_good {ns : List Node} {rd : List RawRecord} (l : List Node)
    (hsub : ∀ n ∈ l, n ∈ ns) :
    ∀ st : BState, GoodState (ns.map (fun n => n.id)) (originNonCompany ns) st →
      GoodState (ns.map (fun n => n.id)) (originNonCompany ns)
        (l.foldl (interopStep (ns.map (fun n => n.id)) rd) st) := by
  induction l with
  | nil => exact fun st h => h
  | cons n t ih =>
    intro st h
    have hn : n ∈ ns := hsub n (List.mem_cons_self n t)
    have hsub2 : ∀ m ∈ t, m ∈ ns := fun m hm => hsub m (List.mem_cons_of_mem n hm)
    refine ih hsub2 _ ?_
    unfold interopStep
    by_cases hc : isCompany n = true
    · rw [if_pos hc]
      exact h
    · rw [if_neg hc]
      exact foldl_addPair_good _ st h (List.mem_map_of_mem _ hn)
        ⟨n, hn, rfl, Bool.not_eq_true _ ▸ hc⟩

theorem foldl_interopStep_mono {ids : List String} {rd : List RawRecord} {x : String}
    (l : List Node) :
    ∀ st : BState, x ∈ st.2 → x ∈ (l.foldl (interopStep ids rd) st).2 := by
  induction l with
  | nil => exact fun st h => h
  | cons n t ih =>
    intro st h
    refine ih _ ?_
    unfold interopStep
    split
    · exact h
    · exact foldl_addPair_mono_snd _ st h

theorem foldl_interopStep_adds {ids : List String} {rd : List RawRecord} {node : Node}
    {tgt : String} (l : List Node) (hn : node ∈ l) (hcomp : isCompany node = false)
    (ht : tgt ∈ interopTechs rd node.id) (hne : tgt ≠ node.id) (hmem : tgt ∈ ids) :
    ∀ st : BState, edgeIdFor node.id tgt ∈ (l.foldl (interopStep ids rd) st).2 := by
  induction l with
  | nil => exact absurd hn (List.not_mem_nil node)
  | cons a t ih =>
    intro st
    rcases List.mem_cons.mp hn with rfl | hn2
    · refine foldl_interopStep_mono t _ ?_
      unfold interopStep
      rw [if_neg (by simp [hcomp])]
      exact foldl_addPair_adds _ ht hne hmem st
    · exact ih hn2 _

theorem foldl_companyStep_good {ns : List Node} {rd : List RawRecord} (l : List Node)
    (hsub : ∀ n ∈ l, n ∈ ns) :
    ∀ st : BState, GoodState (ns.map (fun n => n.id)) (originCompany ns) st →
      GoodState (ns.map (fun n => n.id)) (originCompany ns)
        (l.foldl (companyStep (ns.map (fun n => n.id)) rd) st) := by
  induction l with
  | nil => exact fun st h => h
  | cons n t ih =>
    intro st h
    have hn : n ∈ ns := hsub n (List.mem_cons_self n t)
    have hsub2 : ∀ m ∈ t, m ∈ ns := fun m hm => hsub m (List.mem_cons_of_mem n hm)
    refine ih hsub2 _ ?_
    unfold companyStep
    by_cases hc : isCompany n = true
    · rw [if_pos hc]
      exact foldl_addPair_good _ st h (List.mem_map_of_mem _ hn) ⟨n, hn, rfl, hc⟩
    · rw [if_neg hc]
      exact h

theorem foldl_companyStep_mono {ids : List String} {rd : List RawRecord} {x : String}
    (l : List Node) :
    ∀ st : BState, x ∈ st.2 → x ∈ (l.foldl (companyStep ids rd) st).2 := by
  induction l with
  | nil => exact fun st h => h
  | cons n t ih =>
    intro st h
    refine ih _ ?_
    unfold companyStep
    split
    · exact foldl_addPair_mono_snd _ st h
    · exact h

theorem foldl_companyStep_adds {ids : List String} {rd : List RawRecord} {node : Node}
    {tgt : String} (l : List Node) (hn : node ∈ l) (hcomp : isCompany node = true)
    (ht : tgt ∈ companyTechs rd node) (hne : tgt ≠ node.id) (hmem : tgt ∈ ids) :
    ∀ st : BState, edgeIdFor node.id tgt ∈ (l.foldl (companyStep ids rd) st).2 := by
  induction l with
  | nil => exact absurd hn (List.not_mem_nil node)
  | cons a t ih =>
    intro st
    rcases List.mem_cons.mp hn with rfl | hn2
    · refine foldl_companyStep_mono t _ ?_
      unfold companyStep
      rw [if_pos hcomp]
      exact foldl_addPair_adds _ ht hne hmem st
    · exact ih hn2 _

theorem buildInterop_good (ns : List Node) (rd : List RawRecord) :
    GoodState (ns.map (fun n => n.id)) (originNonCompany ns)
      (ns.foldl (interopStep (ns.map (fun n => n.id)) rd) ([], [])) :=
  foldl_interopStep_good ns (fun _ h => h) ([], []) ⟨rfl, List.nodup_nil, by simp⟩

theorem buildCompany_good (ns : List Node) (rd : List RawRecord) :
    GoodState (ns.map (fun n => n.id)) (originCompany ns)
      (ns.foldl (companyStep (ns.map (fun n => n.id)) rd) ([], [])) :=
  foldl_companyStep_good ns (fun _ h => h) ([], []) ⟨rfl, List.nodup_nil, by simp⟩

theorem buildInterop_edges_eq (ns : List Node) (rd : List RawRecord) :
    (buildInteroperabilityEdges ns rd).1 =
      (ns.foldl (interopStep (ns.map (fun n => n.id)) rd) ([], [])).1 := rfl

theorem buildCompany_edges_eq (ns : List Node) (rd : List RawRecord) :
    (buildCompanyEdges ns rd).1 =
      (ns.foldl (companyStep (ns.map (fun n => n.id)) rd) ([], [])).1 := rfl

theorem edgeIdFor_congr {a b c d : String} (h : sortPair a b = sortPair c d) :
    edgeIdFor a b = edgeIdFor c d := by
  unfold edgeIdFor
  rw [h]

/-! ### Claim C2 -/

/-- C2 counterexample: the initial load (initialElements.js lines 71-86)
builds the edge id as `` `e-${node.id}-${tech}` `` without sorting: a
company "B" using tool "A" yields the edge id "e-B-A", which is not the
canonical sorted key "e-A-B". -/
theorem C2_counterexample :
    initialEdgesFrom initNodes = [⟨"e-B-A", "B", "A", "floating"⟩] ∧
    "e-B-A" ≠ edgeIdFor "B" "A" := by
  constructor
  · decide
  · decide

/-- C2 (amended): every edge produced by the mode rebuild functions
`buildCompanyEdges` and `buildInteroperabilityEdges` carries the canonical
undirected id `e-<min>-<max>` over the sorted endpoint pair, edge ids are
pairwise distinct, and at most one edge exists per unordered endpoint
pair; the initial-load edges of `initialElements` use the unsorted id
`e-<company>-<tech>` instead. -/
theorem C2_canonical_ids (ns : List Node) (rd : List RawRecord) :
    (∀ e ∈ (buildCompanyEdges ns rd).1, e.id = edgeIdFor e.source e.target) ∧
    ((buildCompanyEdges ns rd).1.map (fun e => e.id)).Nodup ∧
    (∀ e₁ ∈ (buildCompanyEdges ns rd).1, ∀ e₂ ∈ (buildCompanyEdges ns rd).1,
      sortPair e₁.source e₁.target = sortPair e₂.source e₂.target → e₁ = e₂) ∧
    (∀ e ∈ (buildInteroperabilityEdges ns rd).1, e.id = edgeIdFor e.source e.target) ∧
    ((buildInteroperabilityEdges ns rd).1.map (fun e => e.id)).Nodup ∧
    (∀ e₁ ∈ (buildInteroperabilityEdges ns rd).1,
      ∀ e₂ ∈ (buildInteroperabilityEdges ns rd).1,
      sortPair e₁.source e₁.target = sortPair e₂.source e₂.target → e₁ = e₂) := by
  obtain ⟨-, hndC, hallC⟩ := buildCompany_good ns rd
  obtain ⟨-, hndI, hallI⟩ := buildInterop_good ns rd
  rw [← buildCompany_edges_eq] at hndC hallC
  rw [← buildInterop_edges_eq] at hndI hallI
  refine ⟨fun e he => (hallC e he).1, hndC, ?_, fun e he => (hallI e he).1, hndI, ?_⟩
  · intro e₁ h₁ e₂ h₂ hpair
    have hid : e₁.id = e₂.id := by
      rw [(hallC e₁ h₁).1, (hallC e₂ h₂).1]
      exact edgeIdFor_congr hpair
    exact List.inj_on_of_nodup_map hndC h₁ h₂ hid
  · intro e₁ h₁ e₂ h₂ hpair
    have hid : e₁.id = e₂.id := by
      rw [(hallI e₁ h₁).1, (hallI e₂ h₂).1]
      exact edgeIdFor_congr hpair
    exact List.inj_on_of_nodup_map hndI h₁ h₂ hid

/-- Witness for C2 at the Acme scenario: the single produced edge carries
the canonical id. -/
theorem C2_witness :
    (⟨"e-Acme-Figma", "Acme", "Figma", "floating"⟩ : Edge).id =
      edgeIdFor "Acme" "Figma" :=
  (C2_canonical_ids acmeNodes acmeData).1
    ⟨"e-Acme-Figma", "Acme", "Figma", "floating"⟩ (by decide)

/-! ### Claim C4 -/

/-- C4: `buildCompanyEdges` never emits an edge whose target is the
company itself or an id absent from the node set (so tool-list entries
that are self references or unknown names produce no edge), and the Acme
scenario yields exactly the edge e-Acme-Figma with connection counts
Acme ↦ 1, Figma ↦ 1. -/
theorem C4_self_unknown_filtering :
    (∀ (ns : List Node) (rd : List RawRecord), ∀ e ∈ (buildCompanyEdges ns rd).1,
      e.source ∈ ns.map (fun n => n.id) ∧ e.target ∈ ns.map (fun n => n.id) ∧
        e.source ≠ e.target) ∧
    buildCompanyEdges acmeNodes acmeData =
      ([⟨"e-Acme-Figma", "Acme", "Figma", "floating"⟩], [("Acme", 1), ("Figma", 1)]) := by
  constructor
  · intro ns rd e he
    rw [buildCompany_edges_eq] at he
    obtain ⟨-, hs, ht, hne, -, -⟩ := (buildCompany_good ns rd).2.2 e he
    exact ⟨hs, ht, hne⟩
  · decide

/-- Witness for C4: the filtering conjunct applied to the Acme scenario
edge. -/
theorem C4_witness :
    "Acme" ∈ acmeNodes.map (fun n => n.id) ∧
    "Figma" ∈ acmeNodes.map (fun n => n.id) ∧
    ("Acme" : String) ≠ "Figma" :=
  C4_self_unknown_filtering.1 acmeNodes acmeData
    ⟨"e-Acme-Figma", "Acme", "Figma", "floating"⟩ (by decide)

/-! ### Claim C5 -/

/-- C5 counterexample: with a tool "T" whose Interoperability field names
the company "C" (and both present as nodes), `buildInteroperabilityEdges`
emits the edge T→C whose target node is a company — the builder excludes
companies only as originators, not as targets. -/
theorem C5_counterexample :
    (buildInteroperabilityEdges tcNodes tcData).1 = [⟨"e-C-T", "T", "C", "floating"⟩] ∧
    (∃ n ∈ tcNodes, n.id = "C" ∧ isCompany n = true) := by
  constructor
  · decide
  · decide

/-- C5 (amended): every edge emitted by `buildInteroperabilityEdges`
originates at a non-company node (its source is the id of a non-company
node of the input list); the target is only guaranteed to be some node id
of the input list and may belong to a company node. -/
theorem C5_source_non_company (ns : List Node) (rd : List RawRecord) :
    ∀ e ∈ (buildInteroperabilityEdges ns rd).1,
      (∃ n ∈ ns, n.id = e.source ∧ isCompany n = false) ∧
      e.target ∈ ns.map (fun n => n.id) := by
  intro e he
  rw [buildInterop_edges_eq] at he
  obtain ⟨-, -, ht, -, hP, -⟩ := (buildInterop_good ns rd).2.2 e he
  exact ⟨hP, ht⟩

/-- Witness for C5 at the tool/company instance: the emitted edge T→C
originates at the non-company node "T". -/
theorem C5_witness :
    (∃ n ∈ tcNodes, n.id = "T" ∧ isCompany n = false) ∧
    "C" ∈ tcNodes.map (fun n => n.id) :=
  C5_source_non_company tcNodes tcData
    ⟨"e-C-T", "T", "C", "floating"⟩ (by decide)

/-! ### Claim C1 -/

/-- C1 counterexample: with hyphenated node ids the canonical id string is
not injective on unordered pairs.  The pairs (a, b-c) and (a-b, c) share
the id "e-a-b-c"; the dataset implies both a-b→c and c→a-b (reciprocal
tokens) with all four tools present as nodes, yet the output contains no
edge for the pair (a-b, c) — the earlier pair (a, b-c) claimed the id. -/
theorem C1_counterexample :
    (∀ n ∈ collNodes, isCompany n = false) ∧
    "a-b" ∈ collNodes.map (fun n => n.id) ∧
    "c" ∈ collNodes.map (fun n => n.id) ∧
    "c" ∈ interopTechs collData "a-b" ∧
    "a-b" ∈ interopTechs collData "c" ∧
    ((buildInteroperabilityEdges collNodes collData).1.filter
      (fun e => decide (sortPair e.source e.target = ("a-b", "c")))) = [] := by
  refine ⟨by decide, by decide, by decide, by decide, by decide, by decide⟩

/-- C1 (amended): in either mode, when the dataset implies a relation
between two distinct node ids A and B (B among A's resolved tool or
interoperability tokens) and the canonical id `e-<min>-<max>` is
injective on pairs of node ids (no hyphen-induced collisions), the
builder emits exactly one edge for the unordered pair, with the canonical
sorted id; repeated or reciprocal dataset entries collapse to that single
edge.  The Figma/Sketch record yields exactly the one edge
e-Figma-Sketch. -/
theorem C1_undirected_dedup :
    (∀ (ns : List Node) (rd : List RawRecord) (nA : Node) (B : String),
      nA ∈ ns → isCompany nA = false → B ∈ interopTechs rd nA.id → B ≠ nA.id →
      B ∈ ns.map (fun n => n.id) → PairInj (ns.map (fun n => n.id)) →
      ∃! e, e ∈ (buildInteroperabilityEdges ns rd).1 ∧
        sortPair e.source e.target = sortPair nA.id B ∧ e.id = edgeIdFor nA.id B) ∧
    (∀ (ns : List Node) (rd : List RawRecord) (nA : Node) (B : String),
      nA ∈ ns → isCompany nA = true → B ∈ companyTechs rd nA → B ≠ nA.id →
      B ∈ ns.map (fun n => n.id) → PairInj (ns.map (fun n => n.id)) →
      ∃! e, e ∈ (buildCompanyEdges ns rd).1 ∧
        sortPair e.source e.target = sortPair nA.id B ∧ e.id = edgeIdFor nA.id B) ∧
    buildInteroperabilityEdges figmaNodes figmaData =
      ([⟨"e-Figma-Sketch", "Figma", "Sketch", "floating"⟩], [("Figma", 1), ("Sketch", 1)]) := by
  refine ⟨?_, ?_, by decide⟩
  · intro ns rd nA B hmem hcomp htok hne hBmem hinj
    obtain ⟨hsync, hnd, hall⟩ := buildInterop_good ns rd
    have hid : edgeIdFor nA.id B ∈
        (ns.foldl (interopStep (ns.map (fun n => n.id)) rd) ([], [])).2 :=
      foldl_interopStep_adds ns hmem hcomp htok hne hBmem ([], [])
    rw [hsync] at hid
    obtain ⟨e, he, heid⟩ := List.mem_map.mp hid
    have hAmem : nA.id ∈ ns.map (fun n => n.id) := List.mem_map_of_mem _ hmem
    obtain ⟨hcan, hsmem, htmem, -, -, -⟩ := hall e he
    have hpair : sortPair e.source e.target = sortPair nA.id B :=
      hinj e.source hsmem e.target htmem nA.id hAmem B hBmem (by rw [← hcan, heid])
    have heB : e ∈ (buildInteroperabilityEdges ns rd).1 := by
      rw [buildInterop_edges_eq]
      exact he
    refine ⟨e, ⟨heB, hpair, heid⟩, ?_⟩
    rintro e₂ ⟨he₂, hpair₂, -⟩
    rw [buildInterop_edges_eq] at he₂
    have hid₂ : e₂.id = e.id := by
      rw [(hall e₂ he₂).1, hcan]
      exact edgeIdFor_congr (hpair₂.trans hpair.symm)
    exact List.inj_on_of_nodup_map hnd he₂ he hid₂
  · intro ns rd nA B hmem hcomp htok hne hBmem hinj
    obtain ⟨hsync, hnd, hall⟩ := buildCompany_good ns rd
    have hid : edgeIdFor nA.id B ∈
        (ns.foldl (companyStep (ns.map (fun n => n.id)) rd) ([], [])).2 :=
      foldl_companyStep_adds ns hmem hcomp htok hne hBmem ([], [])
    rw [hsync] at hid
    obtain ⟨e, he, heid⟩ := List.mem_map.mp hid
    have hAmem : nA.id ∈ ns.map (fun n => n.id) := List.mem_map_of_mem _ hmem
    obtain ⟨hcan, hsmem, htmem, -, -, -⟩ := hall e he
    have hpair : sortPair e.source e.target = sortPair nA.id B :=
      hinj e.source hsmem e.target htmem nA.id hAmem B hBmem (by rw [← hcan, heid])
    have heB : e ∈ (buildCompanyEdges ns rd).1 := by
      rw [buildCompany_edges_eq]
      exact he
    refine ⟨e, ⟨heB, hpair, heid⟩, ?_⟩
    rintro e₂ ⟨he₂, hpair₂, -⟩
    rw [buildCompany_edges_eq] at he₂
    have hid₂ : e₂.id = e.id := by
      rw [(hall e₂ he₂).1, hcan]
      exact edgeIdFor_congr (hpair₂.trans hpair.symm)
    exact List.inj_on_of_nodup_map hnd he₂ he hid₂

/-- Witness for C1: the interoperability conjunct applied to the
Figma/Sketch scenario — exactly one edge for the unordered pair
(Figma, Sketch), with the canonical id. -/
theorem C1_witness :
    ∃! e, e ∈ (buildInteroperabilityEdges figmaNodes figmaData).1 ∧
      sortPair e.source e.target =
        sortPair (⟨"Figma", ⟨"Figma", some "tool", []⟩, ⟨0, 0⟩⟩ : Node).id "Sketch" ∧
      e.id = edgeIdFor (⟨"Figma", ⟨"Figma", some "tool", []⟩, ⟨0, 0⟩⟩ : Node).id "Sketch" :=
  C1_undirected_dedup.1 figmaNodes figmaData
    ⟨"Figma", ⟨"Figma", some "tool", []⟩, ⟨0, 0⟩⟩ "Sketch"
    (by decide) (by decide) (by decide) (by decide) (by decide)
    (by unfold PairInj; decide)

/-! ### Claim C9: geometry of getNodeIntersection -/

theorem abs_sub_add_abs_add (u v : ℚ) : |u - v| + |u + v| = 2 * max |u| |v| := by
  rcases abs_cases u with ⟨hu1, hu2⟩ | ⟨hu1, hu2⟩ <;>
    rcases abs_cases v with ⟨hv1, hv2⟩ | ⟨hv1, hv2⟩ <;>
    rcases abs_cases (u - v) with ⟨h1, h2⟩ | ⟨h1, h2⟩ <;>
    rcases abs_cases (u + v) with ⟨h3, h4⟩ | ⟨h3, h4⟩ <;>
    rcases max_cases |u| |v| with ⟨hm1, hm2⟩ | ⟨hm1, hm2⟩ <;>
    linarith

theorem getNodeIntersection_decomp (A B : Rect) :
    getNodeIntersection A B =
      ((interPoint (A.width / 2) (A.height / 2)
          ((rectCenter B).1 - (rectCenter A).1) ((rectCenter B).2 - (rectCenter A).2)).1 +
        (rectCenter A).1,
       (interPoint (A.width / 2) (A.height / 2)
          ((rectCenter B).1 - (rectCenter A).1) ((rectCenter B).2 - (rectCenter A).2)).2 +
        (rectCenter A).2) := rfl

theorem interPoint_spec (w h dx dy : ℚ) (hw : 0 < w) (hh : 0 < h)
    (hne : ¬(dx = 0 ∧ dy = 0)) :
    (∃ t : ℚ, 0 < t ∧ (interPoint w h dx dy).1 = t * dx ∧ (interPoint w h dx dy).2 = t * dy) ∧
    (|(interPoint w h dx dy).1| = w ∧ |(interPoint w h dx dy).2| ≤ h ∨
     |(interPoint w h dx dy).2| = h ∧ |(interPoint w h dx dy).1| ≤ w) ∧
    (|dy| * w < |dx| * h → |(interPoint w h dx dy).1| = w) ∧
    (|dx| * h < |dy| * w → |(interPoint w h dx dy).2| = h) := by
  have h2w : (0 : ℚ) < 2 * w := by linarith
  have h2h : (0 : ℚ) < 2 * h := by linarith
  set u := dx / (2 * w) with hu
  set v := dy / (2 * h) with hv
  have hdx : dx = u * (2 * w) := by rw [hu]; field_simp
  have hdy : dy = v * (2 * h) := by rw [hv]; field_simp
  have hnuv : ¬(u = 0 ∧ v = 0) := by
    rintro ⟨hu0, hv0⟩
    exact hne ⟨by rw [hdx, hu0]; ring, by rw [hdy, hv0]; ring⟩
  set M := max |u| |v| with hMdef
  have hM : 0 < M := by
    by_contra hle
    push_neg at hle
    have hu0 : |u| ≤ 0 := le_trans (le_max_left _ _) hle
    have hv0 : |v| ≤ 0 := le_trans (le_max_right _ _) hle
    exact hnuv ⟨abs_eq_zero.mp (le_antisymm hu0 (abs_nonneg u)),
      abs_eq_zero.mp (le_antisymm hv0 (abs_nonneg v))⟩
  have hseq : |u - v| + |u + v| = 2 * M := abs_sub_add_abs_add u v
  have hP1 : (interPoint w h dx dy).1 =
      w * ((1 / (|u - v| + |u + v|)) * (u - v) + (1 / (|u - v| + |u + v|)) * (u + v)) := rfl
  have hP2 : (interPoint w h dx dy).2 =
      h * (-((1 / (|u - v| + |u + v|)) * (u - v)) + (1 / (|u - v| + |u + v|)) * (u + v)) := rfl
  have hP1' : (interPoint w h dx dy).1 = (w * u) / M := by
    rw [hP1, hseq]
    field_simp
    ring
  have hP2' : (interPoint w h dx dy).2 = (h * v) / M := by
    rw [hP2, hseq]
    field_simp
    ring
  have habs_px : |(interPoint w h dx dy).1| = w * |u| / M := by
    rw [hP1', abs_div, abs_mul, abs_of_pos hw, abs_of_pos hM]
  have habs_py : |(interPoint w h dx dy).2| = h * |v| / M := by
    rw [hP2', abs_div, abs_mul, abs_of_pos hh, abs_of_pos hM]
  have hcase1 : |v| ≤ |u| →
      |(interPoint w h dx dy).1| = w ∧ |(interPoint w h dx dy).2| ≤ h := by
    intro hc
    have hMu : M = |u| := max_eq_left hc
    have hu0 : (0 : ℚ) < |u| := by rw [← hMu]; exact hM
    constructor
    · rw [habs_px, hMu]
      field_simp
    · rw [habs_py, hMu, div_le_iff₀ hu0]
      exact mul_le_mul_of_nonneg_left hc hh.le
  have hcase2 : |u| ≤ |v| →
      |(interPoint w h dx dy).2| = h ∧ |(interPoint w h dx dy).1| ≤ w := by
    intro hc
    have hMv : M = |v| := max_eq_right hc
    have hv0 : (0 : ℚ) < |v| := by rw [← hMv]; exact hM
    constructor
    · rw [habs_py, hMv]
      field_simp
    · rw [habs_px, hMv, div_le_iff₀ hv0]
      exact mul_le_mul_of_nonneg_left hc hw.le
  refine ⟨⟨1 / (2 * M), div_pos one_pos (by linarith), ?_, ?_⟩, ?_, ?_, ?_⟩
  · rw [hP1', hdx]
    field_simp
    ring
  · rw [hP2', hdy]
    field_simp
    ring
  · rcases le_total |v| |u| with hc | hc
    · exact Or.inl (hcase1 hc)
    · exact Or.inr (hcase2 hc)
  · intro hlt
    have hu_abs : |u| = |dx| / (2 * w) := by rw [hu, abs_div, abs_of_pos h2w]
    have hv_abs : |v| = |dy| / (2 * h) := by rw [hv, abs_div, abs_of_pos h2h]
    have hvu : |v| < |u| := by
      rw [hu_abs, hv_abs, div_lt_div_iff₀ h2h h2w]
      linarith
    exact (hcase1 hvu.le).1
  · intro hlt
    have hu_abs : |u| = |dx| / (2 * w) := by rw [hu, abs_div, abs_of_pos h2w]
    have hv_abs : |v| = |dy| / (2 * h) := by rw [hv, abs_div, abs_of_pos h2h]
    have huv : |u| < |v| := by
      rw [hu_abs, hv_abs, div_lt_div_iff₀ h2w h2h]
      linarith
    exact (hcase2 huv.le).1

/-- C9 counterexample: with `rectA` (10×10, center (5,5)) and `rectB`
(2×2, center (6,5) — strictly inside `rectA`), both rectangles have
positive dimensions and distinct centers, yet the returned point (10,5)
lies beyond the target center: it is on the ray from center to center but
not on the segment between the centers. -/
theorem C9_counterexample :
    getNodeIntersection rectA rectB = (10, 5) ∧
    rectCenter rectA = (5, 5) ∧
    rectCenter rectB = (6, 5) ∧
    ¬∃ t : ℚ, 0 ≤ t ∧ t ≤ 1 ∧
      (10 : ℚ) = 5 + t * (6 - 5) ∧ (5 : ℚ) = 5 + t * (5 - 5) := by
  refine ⟨?_, by norm_num [rectCenter, rectA], by norm_num [rectCenter, rectB], ?_⟩
  · unfold getNodeIntersection rectA rectB
    norm_num
    rw [abs_of_pos (by norm_num : (0 : ℚ) < 1 / 10)]
    norm_num
  · rintro ⟨t, ht0, ht1, hx, -⟩
    have : t = 5 := by linarith
    linarith

/-- C9 (amended): for rectangles with strictly positive dimensions and
distinct centers, `getNodeIntersection` returns a point on the boundary of
the first rectangle lying on the ray from the first center through the
second center (scaling factor t strictly positive — the point is on the
segment between the centers only when the target center lies outside the
first rectangle); the crossing is on a vertical edge when the
width-scaled component of the center-to-center vector has strictly larger
magnitude, and on a horizontal edge when the height-scaled component
does. -/
theorem C9_boundary_ray (A B : Rect) (hwA : 0 < A.width) (hhA : 0 < A.height)
    (hwB : 0 < B.width) (hhB : 0 < B.height) (hne : rectCenter B ≠ rectCenter A) :
    (∃ t : ℚ, 0 < t ∧
      (getNodeIntersection A B).1 =
        (rectCenter A).1 + t * ((rectCenter B).1 - (rectCenter A).1) ∧
      (getNodeIntersection A B).2 =
        (rectCenter A).2 + t * ((rectCenter B).2 - (rectCenter A).2)) ∧
    (|(getNodeIntersection A B).1 - (rectCenter A).1| = A.width / 2 ∧
       |(getNodeIntersection A B).2 - (rectCenter A).2| ≤ A.height / 2 ∨
     |(getNodeIntersection A B).2 - (rectCenter A).2| = A.height / 2 ∧
       |(getNodeIntersection A B).1 - (rectCenter A).1| ≤ A.width / 2) ∧
    (|(rectCenter B).2 - (rectCenter A).2| * (A.width / 2) <
        |(rectCenter B).1 - (rectCenter A).1| * (A.height / 2) →
      |(getNodeIntersection A B).1 - (rectCenter A).1| = A.width / 2) ∧
    (|(rectCenter B).1 - (rectCenter A).1| * (A.height / 2) <
        |(rectCenter B).2 - (rectCenter A).2| * (A.width / 2) →
      |(getNodeIntersection A B).2 - (rectCenter A).2| = A.height / 2) := by
  have hw2 : (0 : ℚ) < A.width / 2 := by linarith
  have hh2 : (0 : ℚ) < A.height / 2 := by linarith
  have hned : ¬((rectCenter B).1 - (rectCenter A).1 = 0 ∧
      (rectCenter B).2 - (rectCenter A).2 = 0) := by
    rintro ⟨h1, h2⟩
    apply hne
    have e1 : (rectCenter B).1 = (rectCenter A).1 := by linarith
    have e2 : (rectCenter B).2 = (rectCenter A).2 := by linarith
    exact Prod.ext e1 e2
  obtain ⟨⟨t, ht, hx, hy⟩, hbound, hvert, hhorz⟩ :=
    interPoint_spec (A.width / 2) (A.height / 2)
      ((rectCenter B).1 - (rectCenter A).1) ((rectCenter B).2 - (rectCenter A).2)
      hw2 hh2 hned
  have hsub1 : (getNodeIntersection A B).1 - (rectCenter A).1 =
      (interPoint (A.width / 2) (A.height / 2)
        ((rectCenter B).1 - (rectCenter A).1) ((rectCenter B).2 - (rectCenter A).2)).1 := by
    rw [getNodeIntersection_decomp]
    ring
  have hsub2 : (getNodeIntersection A B).2 - (rectCenter A).2 =
      (interPoint (A.width / 2) (A.height / 2)
        ((rectCenter B).1 - (rectCenter A).1) ((rectCenter B).2 - (rectCenter A).2)).2 := by
    rw [getNodeIntersection_decomp]
    ring
  refine ⟨⟨t, ht, ?_, ?_⟩, ?_, ?_, ?_⟩
  · have := hsub1
    rw [hx] at this
    linarith
  · have := hsub2
    rw [hy] at this
    linarith
  · rw [hsub1, hsub2]
    exact hbound
  · rw [hsub1]
    exact hvert
  · rw [hsub2]
    exact hhorz

/-- Witness for C9: `rectA` against the distant rectangle `rectC`
(center (102,5)): the crossing lies on the right vertical edge of
`rectA`. -/
theorem C9_witness :
    (∃ t : ℚ, 0 < t ∧
      (getNodeIntersection rectA rectC).1 =
        (rectCenter rectA).1 + t * ((rectCenter rectC).1 - (rectCenter rectA).1) ∧
      (getNodeIntersection rectA rectC).2 =
        (rectCenter rectA).2 + t * ((rectCenter rectC).2 - (rectCenter rectA).2)) ∧
    (|(getNodeIntersection rectA rectC).1 - (rectCenter rectA).1| = rectA.width / 2 ∧
       |(getNodeIntersection rectA rectC).2 - (rectCenter rectA).2| ≤ rectA.height / 2 ∨
     |(getNodeIntersection rectA rectC).2 - (rectCenter rectA).2| = rectA.height / 2 ∧
       |(getNodeIntersection rectA rectC).1 - (rectCenter rectA).1| ≤ rectA.width / 2) ∧
    (|(rectCenter rectC).2 - (rectCenter rectA).2| * (rectA.width / 2) <
        |(rectCenter rectC).1 - (rectCenter rectA).1| * (rectA.height / 2) →
      |(getNodeIntersection rectA rectC).1 - (rectCenter rectA).1| = rectA.width / 2) ∧
    (|(rectCenter rectC).1 - (rectCenter rectA).1| * (rectA.height / 2) <
        |(rectCenter rectC).2 - (rectCenter rectA).2| * (rectA.width / 2) →
      |(getNodeIntersection rectA rectC).2 - (rectCenter rectA).2| = rectA.height / 2) :=
  C9_boundary_ray rectA rectC (by norm_num [rectA]) (by norm_num [rectA])
    (by norm_num [rectC]) (by norm_num [rectC])
    (by norm_num [rectCenter, rectA, rectC, Prod.ext_iff])

/-! ### Claim C10: the layout helpers permute the nodes -/

theorem map_core_enumFrom_posmap (g : ℕ × Node → Pos) :
    ∀ (k : ℕ) (l : List Node),
      ((l.enumFrom k).map (fun p => { p.2 with position := g p })).map core = l.map core := by
  intro k l
  induction l generalizing k with
  | nil => rfl
  | cons n t ih =>
    simp only [List.enumFrom_cons, List.map_cons, ih]
    rfl

theorem enumFrom_flatMap_snd {α : Type} (h : String → List α) :
    ∀ (k : ℕ) (ts : List String),
      (ts.enumFrom k).flatMap (fun q => h q.2) = ts.flatMap h := by
  intro k ts
  induction ts generalizing k with
  | nil => rfl
  | cons t rest ih =>
    simp only [List.enumFrom_cons, List.flatMap_cons, ih]

theorem groups_perm :
    ∀ (types : List String) (ns : List Node), types.Nodup →
      (∀ n ∈ ns, typeKey n.data ∈ types) →
      (types.flatMap (fun t => ns.filter (fun n => typeKey n.data == t))).Perm ns := by
  intro types
  induction types with
  | nil =>
    intro ns _ hcov
    have h : ns = [] :=
      List.eq_nil_iff_forall_not_mem.mpr
        (fun n hn => absurd (hcov n hn) (List.not_mem_nil _))
    simp [h]
  | cons t ts ih =>
    intro ns hnd hcov
    have hts : ts.Nodup := (List.nodup_cons.mp hnd).2
    have htn : t ∉ ts := (List.nodup_cons.mp hnd).1
    rw [List.flatMap_cons]
    have hswap : ts.flatMap (fun t2 => ns.filter (fun n => typeKey n.data == t2)) =
        ts.flatMap (fun t2 =>
          (ns.filter (fun n => !(typeKey n.data == t))).filter
            (fun n => typeKey n.data == t2)) := by
      apply List.flatMap_congr
      intro t2 ht2
      rw [List.filter_filter]
      apply List.filter_congr
      intro n _
      by_cases hk : typeKey n.data = t2
      · have ht2t : t2 ≠ t := fun hc => htn (hc ▸ ht2)
        simp [hk, ht2t]
      · simp [hk]
    rw [hswap]
    have hcov2 : ∀ n ∈ ns.filter (fun n => !(typeKey n.data == t)),
        typeKey n.data ∈ ts := by
      intro n hn
      rcases List.mem_filter.mp hn with ⟨hmem, hcond⟩
      have hne : typeKey n.data ≠ t := by simpa using hcond
      rcases List.mem_cons.mp (hcov n hmem) with h | h
      · exact absurd h hne
      · exact h
    have hperm2 := ih (ns.filter (fun n => !(typeKey n.data == t))) hts hcov2
    exact (hperm2.append_left _).trans
      (List.filter_append_perm (fun n => typeKey n.data == t) ns)

/-- C10: both layout helpers return a permutation of their input node
list, preserving every node's id and data payload and replacing only the
position field; they are pure (the embedding is a pure function of the
input, matching the source's construction of fresh arrays and fresh node
objects via spread). -/
theorem C10_arrange_permutation :
    ∀ (cosF sinF : ℚ → ℚ) (piQ : ℚ) (nodes : List Node) (width height : ℚ)
      (arrangeBy : String) (radius : ℚ),
      ((arrangeNodes cosF sinF piQ nodes width height arrangeBy radius).map core).Perm
        (nodes.map core) ∧
      ((arrangeNodesVertically nodes width height).map core).Perm (nodes.map core) := by
  intro cosF sinF piQ nodes width height arrangeBy radius
  constructor
  · unfold arrangeNodes
    dsimp only
    rw [List.enum_eq_enumFrom, map_core_enumFrom_posmap]
    exact (List.mergeSort_perm nodes _).map core
  · unfold arrangeNodesVertically
    dsimp only
    rw [List.map_flatten, List.map_map, ← List.flatMap_def]
    have hcol : ∀ q : ℕ × String,
        (typeColumn nodes height q).map core =
          ((nodes.filter (fun n => typeKey n.data == q.2)).mergeSort
            (fun a b => strLe (lowerStr a.data.label) (lowerStr b.data.label))).map core := by
      intro q
      unfold typeColumn
      dsimp only
      rw [List.enum_eq_enumFrom, map_core_enumFrom_posmap]
    have step1 :
        ((((nodes.map (fun n => typeKey n.data)).dedup).mergeSort strLe).enum.flatMap
          (List.map core ∘ typeColumn nodes height)).Perm
        ((((nodes.map (fun n => typeKey n.data)).dedup).mergeSort strLe).enum.flatMap
          (fun q => (nodes.filter (fun n => typeKey n.data == q.2)).map core)) := by
      apply List.Perm.flatMap_left
      intro q hq
      rw [Function.comp_apply, hcol q]
      exact (List.mergeSort_perm _ _).map core
    refine step1.trans ?_
    rw [List.enum_eq_enumFrom,
      enumFrom_flatMap_snd (fun t => (nodes.filter (fun n => typeKey n.data == t)).map core)
        0 (((nodes.map (fun n => typeKey n.data)).dedup).mergeSort strLe),
      ← List.map_flatMap]
    apply List.Perm.map
    apply groups_perm
    · exact (List.mergeSort_perm _ _).symm.nodup (List.nodup_dedup _)
    · intro n hn
      rw [List.mem_mergeSort, List.mem_dedup]
      exact List.mem_map_of_mem (fun n => typeKey n.data) hn

end DesignTech
